import Mathlib

/-!
Shallow embedding of `scripts/inputs/create_test_batch.py`.

The script turns the metadata of a completed GATKSVPipelineBatch run into a
flat JSON "values" document.  We model JSON values (`JVal`), Python dicts as
insertion-ordered association lists with distinct keys (`dictInsert`,
`dictLookup`, `dictContains`), the Python string primitives the script uses
(`str.replace`, the `in` substring test, `str.startswith`, `str.endswith`,
`str.split('.')[-1]`, `"\n".join`, `os.path.join`, and `urlparse` restricted
to the `gs://` URIs this script deals with), and each phase of `main` as a
function returning `Except PyError`.

Python exceptions are modelled by the `PyError` constructors; exception
messages are elided (no claim concerns message text).  The Google Cloud
Storage client is an external collaborator; its upload outcome is abstracted
by an `uploadOk : Bool` parameter, and the blob it would receive is recorded
explicitly so that theorems can speak about blob names and contents.
-/

/-- Membership of `pat` as a contiguous substring of `hay`, on character
lists: the semantics of Python's `pat in hay` for strings. -/
def isSubstrList (pat : List Char) : List Char → Bool
  | [] => pat.isEmpty
  | c :: rest => pat.isPrefixOf (c :: rest) || isSubstrList pat rest

/-- Python `needle in hay` for strings. -/
def pyInStr (needle hay : String) : Bool :=
  isSubstrList needle.data hay.data

/-- Fuel-indexed worker for `str.replace`: replaces non-overlapping
occurrences of `pat` left to right.  The fuel starts at the length of the
subject and decreases by one each step while at least one character is
consumed, so it never runs out on the initial call. -/
def replaceAux (pat rep : List Char) : Nat → List Char → List Char
  | _, [] => []
  | 0, s => s
  | n + 1, c :: rest =>
    if pat.isPrefixOf (c :: rest) then
      rep ++ replaceAux pat rep n (List.drop (pat.length - 1) rest)
    else
      c :: replaceAux pat rep n rest

/-- Python `s.replace(pat, rep)`.  The empty-pattern case (Python inserts
`rep` around every character) is handled separately; every pattern used by
the script is non-empty. -/
def pyReplace (s pat rep : String) : String :=
  if pat.data.isEmpty then
    String.mk (rep.data ++ s.data.foldr (fun c acc => c :: (rep.data ++ acc)) [])
  else
    String.mk (replaceAux pat.data rep.data s.data.length s.data)

/-- Python `s.startswith(pre)`. -/
def pyStartsWith (s pre : String) : Bool :=
  pre.data.isPrefixOf s.data

/-- Python `s.endswith(suf)`. -/
def pyEndsWith (s suf : String) : Bool :=
  suf.data.isSuffixOf s.data

/-- Python `s[:-1]`: drop the final character. -/
def pyDropLast (s : String) : String :=
  String.mk s.data.dropLast

/-- Python `s.split('.')[-1]`: the segment after the last dot, or the whole
string when no dot occurs. -/
def pySplitDotLast (s : String) : String :=
  String.mk ((s.data.reverse.takeWhile (fun c => !(c = '.'))).reverse)

/-- Python `sep.join(strs)` for a list of strings. -/
def pyJoinStrs (sep : String) : List String → String
  | [] => ""
  | [x] => x
  | x :: y :: xs => x ++ sep ++ pyJoinStrs sep (y :: xs)

/-- Python `os.path.join(a, b)` (posix semantics): an absolute second
component wins; otherwise the components are joined with a single `/`. -/
def osPathJoin (a b : String) : String :=
  if pyStartsWith b "/" then b
  else if a = "" ∨ pyEndsWith a "/" then a ++ b
  else a ++ "/" ++ b

/-- Modelled from `urllib.parse.urlparse` restricted to the inputs this
script passes it: for a `gs://bucket/sub/dir` URI, `netloc` is the segment
between `gs://` and the next `/` and `path` is the remainder; a string with
no scheme parses with empty `netloc` and itself as `path`.  Mirrors
`split_bucket_subdir` in the source: returns the bucket name and the
subdirectory with leading slashes stripped (`lstrip("/")`). -/
def split_bucket_subdir (directory : String) : String × String :=
  if pyStartsWith directory "gs://" then
    let rest := directory.data.drop 5
    (String.mk (rest.takeWhile (fun c => !(c = '/'))),
     String.mk ((rest.dropWhile (fun c => !(c = '/'))).dropWhile (fun c => c = '/')))
  else
    ("", String.mk (directory.data.dropWhile (fun c => c = '/')))

/-- JSON values as handled by the script (numbers are modelled by integers;
no claim involves fractional numbers). -/
inductive JVal where
  | null
  | bool (b : Bool)
  | num (n : Int)
  | str (s : String)
  | list (elems : List JVal)
  | obj (fields : List (String × JVal))

/-- Lookup in a Python dict modelled as an insertion-ordered association
list with distinct keys. -/
def dictLookup (d : List (String × JVal)) (k : String) : Option JVal :=
  match d with
  | [] => none
  | (k1, v) :: rest => if k1 = k then some v else dictLookup rest k

/-- Python `d[k] = v`: update the value in place keeping the key's original
position, or append a fresh entry at the end. -/
def dictInsert (d : List (String × JVal)) (k : String) (v : JVal) : List (String × JVal) :=
  match d with
  | [] => [(k, v)]
  | (k1, v1) :: rest => if k1 = k then (k1, v) :: rest else (k1, v1) :: dictInsert rest k v

/-- Python `k in d` for a dict. -/
def dictContains (d : List (String × JVal)) (k : String) : Bool :=
  d.any (fun p => p.1 = k)

/-- Whether a JSON value is null (`value is None` in the source). -/
def isNull : JVal → Bool
  | JVal.null => true
  | _ => false

/-- The Python exceptions the script can raise (messages elided) plus the
abstract failure of the external storage client. -/
inductive PyError where
  | valueError
  | typeError
  | attributeError
  | keyError
  | storageError
deriving DecidableEq

/-- `INPUT_KEYS` from the source: the fixed allow-list of required workflow
inputs.  The source stores it as a Python `set` with unspecified iteration
order; we keep the source's literal order, and every theorem below is
insensitive to that order. -/
def INPUT_KEYS : List String :=
  ["name", "samples", "bam_or_cram_files", "requester_pays_crams", "ped_file",
   "contig_ploidy_model_tar", "gcnv_model_tars", "qc_definitions", "outlier_cutoff_table"]

/-- `FILE_LIST_KEYS` from the source: keys whose list values may be
materialized as newline-delimited blobs. -/
def FILE_LIST_KEYS : List String :=
  ["PE_files", "SR_files", "samples", "std_manta_vcfs", "std_wham_vcfs",
   "std_melt_vcfs", "std_scramble_vcfs", "gcnv_model_tars"]

/-- Python membership test `x in v` where `x` is the (possibly absent)
execution bucket argument: substring test on strings, element equality on
lists, key membership on dicts, `TypeError` on the remaining JSON values. -/
def pyInItem (x : Option String) (v : JVal) : Except PyError Bool :=
  match v with
  | JVal.str s =>
    match x with
    | some t => Except.ok (pyInStr t s)
    | none => Except.error PyError.typeError
  | JVal.list xs =>
    Except.ok (xs.any (fun e =>
      match x, e with
      | some t, JVal.str u => t = u
      | none, JVal.null => true
      | _, _ => false))
  | JVal.obj kvs =>
    Except.ok (kvs.any (fun p =>
      match x with
      | some t => p.1 = t
      | none => false))
  | _ => Except.error PyError.typeError

/-- `replace_output_dir` from the source: raise `ValueError` when the
execution bucket does not occur in the value, otherwise
`value.replace(execution_bucket, outputs_dir)`.  A non-string value that
passes the membership test (a list or dict) has no `replace` method and
raises `AttributeError`. -/
def replace_output_dir (value : JVal) (execution_bucket : Option String) (outputs_dir : String) :
    Except PyError JVal :=
  match pyInItem execution_bucket value with
  | Except.error e => Except.error e
  | Except.ok mem =>
    if !mem then Except.error PyError.valueError
    else
      match value, execution_bucket with
      | JVal.str s, some eb => Except.ok (JVal.str (pyReplace s eb outputs_dir))
      | _, _ => Except.error PyError.attributeError

/-- The list comprehension in `replace_output_dir_maybe_list`: apply
`replace_output_dir` to each element left to right, aborting on the first
exception. -/
def mapRod (execution_bucket : Option String) (outputs_dir : String) :
    List JVal → Except PyError (List JVal)
  | [] => Except.ok []
  | v :: vs =>
    match replace_output_dir v execution_bucket outputs_dir with
    | Except.error e => Except.error e
    | Except.ok w =>
      match mapRod execution_bucket outputs_dir vs with
      | Except.error e => Except.error e
      | Except.ok ws => Except.ok (w :: ws)

/-- `replace_output_dir_maybe_list` from the source: identity when no
outputs directory is configured, elementwise on lists, otherwise a single
`replace_output_dir`. -/
def replace_output_dir_maybe_list (value : JVal) (execution_bucket : Option String)
    (outputs_dir : Option String) : Except PyError JVal :=
  match outputs_dir with
  | none => Except.ok value
  | some od =>
    match value with
    | JVal.list xs =>
      match mapRod execution_bucket od xs with
      | Except.error e => Except.error e
      | Except.ok ys => Except.ok (JVal.list ys)
    | v => replace_output_dir v execution_bucket od

/-- Lines 168-181 of `main`: when `--final-workflow-outputs-dir` is given,
`--execution-bucket` must be given too, both must start with `gs://`, and a
trailing `/` is stripped from each.  When the outputs directory is absent no
check at all is performed on the execution bucket. -/
def validatePrefixes (execution_bucket outputs_dir : Option String) :
    Except PyError (Option String × Option String) :=
  match outputs_dir with
  | none => Except.ok (execution_bucket, none)
  | some od =>
    match execution_bucket with
    | none => Except.error PyError.valueError
    | some eb =>
      if !pyStartsWith eb "gs://" then Except.error PyError.valueError
      else if !pyStartsWith od "gs://" then Except.error PyError.valueError
      else
        Except.ok (some (if pyEndsWith eb "/" then pyDropLast eb else eb),
                   some (if pyEndsWith od "/" then pyDropLast od else od))

/-- Key de-prefixing from line 185: `key.replace("GATKSVPipelineBatch.", "")`. -/
def deprefixKey (k : String) : String :=
  pyReplace k "GATKSVPipelineBatch." ""

/-- Worker for the dict comprehension at lines 185-187: left-to-right over
the `outputs` items, skipping null values, de-prefixing keys, piping values
through `replace_output_dir_maybe_list`, aborting on the first exception. -/
def extractOutputsGo (execution_bucket outputs_dir : Option String) :
    List (String × JVal) → List (String × JVal) → Except PyError (List (String × JVal))
  | acc, [] => Except.ok acc
  | acc, (k, v) :: rest =>
    if isNull v then extractOutputsGo execution_bucket outputs_dir acc rest
    else
      match replace_output_dir_maybe_list v execution_bucket outputs_dir with
      | Except.error e => Except.error e
      | Except.ok w =>
        extractOutputsGo execution_bucket outputs_dir (dictInsert acc (deprefixKey k) w) rest

/-- Lines 185-187 of `main`: the dict comprehension over `metadata["outputs"]`
that drops null entries, de-prefixes keys, and pipes values through
`replace_output_dir_maybe_list`. -/
def extractOutputs (outputs : List (String × JVal)) (execution_bucket outputs_dir : Option String) :
    Except PyError (List (String × JVal)) :=
  extractOutputsGo execution_bucket outputs_dir [] outputs

/-- Lines 188-191 of `main`: for every raw key of `metadata["inputs"]` that
is literally a member of `INPUT_KEYS`, set `values[raw_key.split('.')[-1]] =
inputs[key]`.  The source iterates `set(inputs.keys()).intersection(INPUT_KEYS)`
in unspecified order; we iterate `INPUT_KEYS` filtered by dict membership,
and the result is order-independent because distinct raw keys yield
distinct bare keys. -/
def mergeInputsGo (inputs : List (String × JVal)) :
    List (String × JVal) → List String → Except PyError (List (String × JVal))
  | acc, [] => Except.ok acc
  | acc, rawKey :: rest =>
    let key := pySplitDotLast rawKey
    match dictLookup inputs key with
    | some v => mergeInputsGo inputs (dictInsert acc key v) rest
    | none => Except.error PyError.keyError

/-- See the loop body: `values[raw_key.split('.')[-1]] = inputs[key]`; a
missing `inputs[key]` would be a `KeyError`. -/
def mergeInputs (values inputs : List (String × JVal)) : Except PyError (List (String × JVal)) :=
  mergeInputsGo inputs values (INPUT_KEYS.filter (fun k => dictContains inputs k))

def fillMissingGo : List (String × JVal) × List String → List String →
    List (String × JVal) × List String
  | acc, [] => acc
  | acc, k :: rest => fillMissingGo (dictInsert acc.1 k JVal.null, acc.2 ++ [k]) rest

/-- Lines 192-195 of `main`: every allow-listed key absent from `values`
is warned about on stderr (we record the key names) and filled with null.
The key set `INPUT_KEYS - set(values.keys())` is computed before the loop. -/
def fillMissing (values : List (String × JVal)) : List (String × JVal) × List String :=
  fillMissingGo (values, []) (INPUT_KEYS.filter (fun k => !dictContains values k))

/-- Checks that every joined element is a string, as Python `str.join` does,
raising `TypeError` at the first element that is not. -/
def strList : List JVal → Except PyError (List String)
  | [] => Except.ok []
  | x :: rest =>
    match x with
    | JVal.str s =>
      match strList rest with
      | Except.error e => Except.error e
      | Except.ok ss => Except.ok (s :: ss)
    | _ => Except.error PyError.typeError

/-- Python `sep.join(value)`: joins list elements when all are strings
(`TypeError` otherwise), joins the characters of a string, joins the keys of
a dict, and raises `TypeError` on null, numbers and booleans. -/
def pyJoinVal (sep : String) (v : JVal) : Except PyError String :=
  match v with
  | JVal.list xs =>
    match strList xs with
    | Except.error e => Except.error e
    | Except.ok strs => Except.ok (pyJoinStrs sep strs)
  | JVal.str s => Except.ok (pyJoinStrs sep (s.data.map (fun c => String.mk [c])))
  | JVal.obj kvs => Except.ok (pyJoinStrs sep (kvs.map (fun p => p.1)))
  | _ => Except.error PyError.typeError

/-- Outcome of one `create_file_list` call: the returned URI or raised
exception, whether the `os.unlink(fname)` line was reached, and the blob the
storage client received (name and content) if the upload completed. -/
structure CflResult where
  result : Except PyError String
  tmpDeleted : Bool
  blob : Option (String × String)

/-- `create_file_list` from the source: serialize the list to a temporary
file, upload it as `<list_key>.txt` under the bucket/subdirectory of
`file_list_bucket`, unlink the temporary file, and return the `gs://` path.
The statements run in that order with no exception handler, so the unlink is
reached only when the join and the upload both succeed. `uploadOk` abstracts
the external storage client's outcome. -/
def create_file_list (list_key : String) (values_list : JVal) (file_list_bucket : String)
    (uploadOk : Bool) : CflResult :=
  match pyJoinVal "\n" values_list with
  | Except.error e => { result := Except.error e, tmpDeleted := false, blob := none }
  | Except.ok content =>
    let destBucket := (split_bucket_subdir file_list_bucket).1
    let subdir := (split_bucket_subdir file_list_bucket).2
    let gcsBlobName := osPathJoin subdir (list_key ++ ".txt")
    if uploadOk then
      { result := Except.ok (osPathJoin (osPathJoin "gs://" destBucket) gcsBlobName),
        tmpDeleted := true,
        blob := some (gcsBlobName, content) }
    else
      { result := Except.error PyError.storageError, tmpDeleted := false, blob := none }

/-- The values dict together with the blobs uploaded so far. -/
structure FlOutcome where
  values : List (String × JVal)
  blobs : List (String × String)

/-- One iteration of the loop at lines 198-200:
`values[key + "_list"] = create_file_list(key + "_list", values[key], file_list_bucket)`. -/
def flStep (b : String) (uploadOk : Bool) (acc : FlOutcome) (key : String) :
    Except PyError FlOutcome :=
  match dictLookup acc.values key with
  | none => Except.error PyError.keyError
  | some v =>
    match create_file_list (key ++ "_list") v b uploadOk with
    | { result := Except.error e, tmpDeleted := _, blob := _ } => Except.error e
    | { result := Except.ok uri, tmpDeleted := _, blob := bl } =>
      Except.ok { values := dictInsert acc.values (key ++ "_list") (JVal.str uri),
                  blobs := acc.blobs ++ bl.toList }

/-- Lines 197-200 of `main`: when a file-list bucket is configured, loop
over `set(values.keys()).intersection(FILE_LIST_KEYS)` (the key set is
materialized before the loop mutates `values`). -/
def flGo (b : String) (uploadOk : Bool) : FlOutcome → List String → Except PyError FlOutcome
  | acc, [] => Except.ok acc
  | acc, key :: rest =>
    match flStep b uploadOk acc key with
    | Except.error e => Except.error e
    | Except.ok acc1 => flGo b uploadOk acc1 rest

def fileListPhase (values : List (String × JVal)) (file_list_bucket : Option String)
    (uploadOk : Bool) : Except PyError FlOutcome :=
  match file_list_bucket with
  | none => Except.ok { values := values, blobs := [] }
  | some b =>
    flGo b uploadOk { values := values, blobs := [] }
      (FILE_LIST_KEYS.filter (fun k => dictContains values k))

/-- The parsed metadata document: its two required fields. -/
structure Metadata where
  inputs : List (String × JVal)
  outputs : List (String × JVal)

/-- Everything observable from a successful run: the final values dict
(printed as sorted JSON), the warned-about missing keys (stderr), and the
uploaded blobs. -/
structure MainOutcome where
  values : List (String × JVal)
  warnings : List String
  blobs : List (String × String)

/-- `main` after argument parsing and metadata loading: prefix validation,
output extraction, input merge, missing-key fill, file-list materialization,
in the source's order; any raised exception aborts the run. -/
def runMain (md : Metadata) (execution_bucket outputs_dir file_list_bucket : Option String)
    (uploadOk : Bool) : Except PyError MainOutcome :=
  match validatePrefixes execution_bucket outputs_dir with
  | Except.error e => Except.error e
  | Except.ok (eb, od) =>
    match extractOutputs md.outputs eb od with
    | Except.error e => Except.error e
    | Except.ok vals0 =>
      match mergeInputs vals0 md.inputs with
      | Except.error e => Except.error e
      | Except.ok vals1 =>
        match fileListPhase (fillMissing vals1).1 file_list_bucket uploadOk with
        | Except.error e => Except.error e
        | Except.ok fl =>
          Except.ok { values := fl.values, warnings := (fillMissing vals1).2, blobs := fl.blobs }

/-- The blob name `create_file_list` produces for a file-list key `key`:
`os.path.join(subdir, key + "_list" + ".txt")`. -/
def cflBlobName (b key : String) : String :=
  osPathJoin (split_bucket_subdir b).2 ((key ++ "_list") ++ ".txt")

/-- The URI `create_file_list` returns for a file-list key `key`:
`os.path.join("gs://", dest_bucket, blob_name)`. -/
def cflUri (b key : String) : String :=
  osPathJoin (osPathJoin "gs://" (split_bucket_subdir b).1) (cflBlobName b key)

/-! ### Helper lemmas about the dict model -/

theorem dictContains_cons (k1 : String) (v1 : JVal) (rest : List (String × JVal)) (k : String) :
    dictContains ((k1, v1) :: rest) k = (decide (k1 = k) || dictContains rest k) := rfl

theorem dictContains_eq_isSome (d : List (String × JVal)) (k : String) :
    dictContains d k = (dictLookup d k).isSome := by
  induction d with
  | nil => rfl
  | cons p rest ih =>
    obtain ⟨k1, v1⟩ := p
    by_cases h : k1 = k
    · simp [dictContains_cons, dictLookup, h]
    · simp [dictContains_cons, dictLookup, h, ih]

theorem dictLookup_insert_self (d : List (String × JVal)) (k : String) (v : JVal) :
    dictLookup (dictInsert d k v) k = some v := by
  induction d with
  | nil => simp [dictInsert, dictLookup]
  | cons p rest ih =>
    obtain ⟨k1, v1⟩ := p
    by_cases h : k1 = k
    · simp [dictInsert, dictLookup, h]
    · simp [dictInsert, dictLookup, h, ih]

theorem dictLookup_insert_ne (d : List (String × JVal)) (k k2 : String) (v : JVal)
    (h : k ≠ k2) : dictLookup (dictInsert d k v) k2 = dictLookup d k2 := by
  induction d with
  | nil => simp [dictInsert, dictLookup, h]
  | cons p rest ih =>
    obtain ⟨k1, v1⟩ := p
    by_cases h1 : k1 = k
    · subst h1
      simp [dictInsert, dictLookup, h]
    · simp [dictInsert, dictLookup, h1, ih]

theorem dictContains_of_lookup (d : List (String × JVal)) (k : String) (v : JVal)
    (h : dictLookup d k = some v) : dictContains d k = true := by
  rw [dictContains_eq_isSome, h]
  rfl

theorem dictContains_insert_self (d : List (String × JVal)) (k : String) (v : JVal) :
    dictContains (dictInsert d k v) k = true := by
  rw [dictContains_eq_isSome, dictLookup_insert_self]
  rfl

theorem dictContains_insert_ne (d : List (String × JVal)) (k k2 : String) (v : JVal)
    (h : k ≠ k2) : dictContains (dictInsert d k v) k2 = dictContains d k2 := by
  rw [dictContains_eq_isSome, dictLookup_insert_ne d k k2 v h, dictContains_eq_isSome]

theorem dictContains_insert_of (d : List (String × JVal)) (k k2 : String) (v : JVal)
    (h : dictContains d k2 = true) : dictContains (dictInsert d k v) k2 = true := by
  by_cases hk : k = k2
  · subst hk
    exact dictContains_insert_self d k v
  · rw [dictContains_insert_ne d k k2 v hk]
    exact h

theorem dictContains_iff_mem (d : List (String × JVal)) (k : String) :
    dictContains d k = true ↔ k ∈ d.map Prod.fst := by
  induction d with
  | nil => simp [dictContains]
  | cons p rest ih =>
    obtain ⟨k1, v1⟩ := p
    by_cases h : k1 = k
    · simp [dictContains_cons, h]
    · simp [dictContains_cons, h, ih]
      intro hh
      exact absurd hh.symm h

theorem dictInsert_of_not_contains (d : List (String × JVal)) (k : String) (v : JVal)
    (h : dictContains d k = false) : dictInsert d k v = d ++ [(k, v)] := by
  induction d with
  | nil => rfl
  | cons p rest ih =>
    obtain ⟨k1, v1⟩ := p
    rw [dictContains_cons] at h
    rcases Bool.or_eq_false_iff.mp h with ⟨h1, h2⟩
    have h1' : ¬(k1 = k) := of_decide_eq_false h1
    simp [dictInsert, h1', ih h2]

/-! ### Helper lemmas about the string model -/

theorem pyEndsWith_append (a s : String) : pyEndsWith (a ++ s) s = true := by
  simp only [pyEndsWith, String.data_append, List.isSuffixOf, List.reverse_append]
  rw [List.isPrefixOf_iff_prefix]
  exact List.prefix_append _ _

theorem append_ne_of_not_endsWith (k s a : String) (h : pyEndsWith k s = false) :
    a ++ s ≠ k := by
  intro hc
  rw [← hc, pyEndsWith_append] at h
  exact Bool.noConfusion h

theorem strAppend_right_cancel (a b s : String) (h : a ++ s = b ++ s) : a = b := by
  apply String.ext
  have hd : a.data ++ s.data = b.data ++ s.data := by
    rw [← String.data_append, ← String.data_append, h]
  exact List.append_cancel_right hd

theorem strAppend_assoc (a b c : String) : a ++ b ++ c = a ++ (b ++ c) := by
  apply String.ext
  simp [String.data_append, List.append_assoc]

/-- When no outputs directory is configured, the rewriter is the identity. -/
theorem romdl_none (v : JVal) (eb : Option String) :
    replace_output_dir_maybe_list v eb none = Except.ok v := rfl

/-! ### Facts about the concrete allow-lists -/

theorem INPUT_KEYS_nodup : INPUT_KEYS.Nodup := by decide

theorem FILE_LIST_KEYS_nodup : FILE_LIST_KEYS.Nodup := by decide

theorem INPUT_KEYS_splitDot : ∀ k ∈ INPUT_KEYS, pySplitDotLast k = k := by decide

theorem FILE_LIST_KEYS_no_list_end : ∀ k ∈ FILE_LIST_KEYS, pyEndsWith k "_list" = false := by
  decide

/-! ### Behaviour of the rewriter on strings and lists -/

theorem rod_str (eb od s : String) :
    replace_output_dir (JVal.str s) (some eb) od
      = if pyInStr eb s then Except.ok (JVal.str (pyReplace s eb od))
        else Except.error PyError.valueError := by
  by_cases h : pyInStr eb s <;> simp [replace_output_dir, pyInItem, h]

theorem mapRod_strs_ok (eb od : String) (xs : List String)
    (h : ∀ s ∈ xs, pyInStr eb s = true) :
    mapRod (some eb) od (xs.map JVal.str)
      = Except.ok (xs.map (fun s => JVal.str (pyReplace s eb od))) := by
  induction xs with
  | nil => rfl
  | cons x rest ih =>
    have hx := h x (List.mem_cons_self x rest)
    simp [mapRod, rod_str, hx, ih (fun s hs => h s (List.mem_cons_of_mem x hs))]

theorem mapRod_strs_err (eb od : String) (xs : List String)
    (h : ∃ s ∈ xs, pyInStr eb s = false) :
    mapRod (some eb) od (xs.map JVal.str) = Except.error PyError.valueError := by
  induction xs with
  | nil => simp at h
  | cons x rest ih =>
    cases hx : pyInStr eb x with
    | false => simp [mapRod, rod_str, hx]
    | true =>
      rcases h with ⟨s, hs, hsf⟩
      rcases List.mem_cons.mp hs with rfl | hs2
      · rw [hx] at hsf
        exact Bool.noConfusion hsf
      · simp [mapRod, rod_str, hx, ih ⟨s, hs2, hsf⟩]

/-! ### Behaviour of the join and of blob naming -/

theorem strList_map (xs : List String) : strList (xs.map JVal.str) = Except.ok xs := by
  induction xs with
  | nil => rfl
  | cons x rest ih => simp [strList, ih]

theorem str_nil_append (c : String) : "" ++ c = c := by
  apply String.ext
  rw [String.data_append]
  rfl

theorem osPathJoin_suffix (a c : String) : ∃ p, osPathJoin a c = p ++ c := by
  unfold osPathJoin
  split
  · exact ⟨"", (str_nil_append c).symm⟩
  · split
    · exact ⟨a, rfl⟩
    · exact ⟨a ++ "/", rfl⟩

theorem create_file_list_strs (list_key b : String) (xs : List String) :
    create_file_list list_key (JVal.list (xs.map JVal.str)) b true
      = { result := Except.ok (osPathJoin (osPathJoin "gs://" (split_bucket_subdir b).1)
                      (osPathJoin (split_bucket_subdir b).2 (list_key ++ ".txt"))),
          tmpDeleted := true,
          blob := some (osPathJoin (split_bucket_subdir b).2 (list_key ++ ".txt"),
                        pyJoinStrs "\n" xs) } := by
  simp [create_file_list, pyJoinVal, strList_map]

theorem create_file_list_null (list_key b : String) (uploadOk : Bool) :
    create_file_list list_key JVal.null b uploadOk
      = { result := Except.error PyError.typeError, tmpDeleted := false, blob := none } := rfl

/-! ### The merge loop -/

theorem mergeInputsGo_spec (inputs : List (String × JVal)) :
    ∀ (L : List String) (values : List (String × JVal)),
    (∀ r ∈ L, pySplitDotLast r = r ∧ dictContains inputs r = true) →
    ∃ m, mergeInputsGo inputs values L = Except.ok m
      ∧ (∀ k, k ∈ L → dictLookup m k = dictLookup inputs k)
      ∧ (∀ k, k ∉ L → dictLookup m k = dictLookup values k) := by
  intro L
  induction L with
  | nil => exact fun values _ => ⟨values, rfl, fun k hk => absurd hk (List.not_mem_nil k), fun _ _ => rfl⟩
  | cons r rest ih =>
    intro values hprop
    obtain ⟨hsplit, hcont⟩ := hprop r (List.mem_cons_self r rest)
    rw [dictContains_eq_isSome] at hcont
    obtain ⟨v, hv⟩ := Option.isSome_iff_exists.mp hcont
    obtain ⟨m, hm, hin, hout⟩ :=
      ih (dictInsert values r v) (fun a ha => hprop a (List.mem_cons_of_mem r ha))
    refine ⟨m, ?_, ?_, ?_⟩
    · simp only [mergeInputsGo, hsplit, hv]
      exact hm
    · intro k hk
      rcases List.mem_cons.mp hk with rfl | hk2
      · by_cases hkr : k ∈ rest
        · exact hin k hkr
        · rw [hout k hkr, dictLookup_insert_self, hv]
      · exact hin k hk2
    · intro k hk
      have hkr : k ≠ r := fun hh => hk (hh ▸ List.mem_cons_self r rest)
      have hk2 : k ∉ rest := fun hh => hk (List.mem_cons_of_mem r hh)
      rw [hout k hk2, dictLookup_insert_ne values r k v (fun hh => hkr hh.symm)]

/-! ### The missing-key loop -/

theorem fillMissingGo_warns : ∀ (L : List String) (acc : List (String × JVal) × List String),
    (fillMissingGo acc L).2 = acc.2 ++ L := by
  intro L
  induction L with
  | nil => intro acc; simp [fillMissingGo]
  | cons a rest ih =>
    intro acc
    rw [fillMissingGo, ih]
    simp

theorem fillMissingGo_contains : ∀ (L : List String) (acc : List (String × JVal) × List String)
    (k : String), (k ∈ L ∨ dictContains acc.1 k = true) →
    dictContains (fillMissingGo acc L).1 k = true := by
  intro L
  induction L with
  | nil =>
    intro acc k hk
    rcases hk with hk | hk
    · exact absurd hk (List.not_mem_nil k)
    · exact hk
  | cons a rest ih =>
    intro acc k hk
    rw [fillMissingGo]
    apply ih
    rcases hk with hk | hk
    · rcases List.mem_cons.mp hk with rfl | hk2
      · exact Or.inr (dictContains_insert_self acc.1 k JVal.null)
      · exact Or.inl hk2
    · exact Or.inr (dictContains_insert_of acc.1 a k JVal.null hk)

/-! ### The file-list loop -/

theorem flStep_ok_shape (b : String) (up : Bool) (acc : FlOutcome) (key : String)
    (acc1 : FlOutcome) (h : flStep b up acc key = Except.ok acc1) :
    ∃ uri bl, acc1.values = dictInsert acc.values (key ++ "_list") (JVal.str uri)
      ∧ acc1.blobs = acc.blobs ++ bl := by
  cases hl : dictLookup acc.values key with
  | none =>
    rw [flStep] at h
    simp only [hl] at h
    exact Except.noConfusion h
  | some v =>
    rw [flStep] at h
    simp only [hl] at h
    cases hcfl : create_file_list (key ++ "_list") v b up with
    | mk res td bl =>
      rw [hcfl] at h
      cases res with
      | error e => exact Except.noConfusion h
      | ok uri =>
        refine ⟨uri, bl.toList, ?_, ?_⟩ <;> rw [← Except.ok.inj h]

theorem flGo_ok_mono (b : String) (up : Bool) : ∀ (L : List String) (acc out : FlOutcome),
    flGo b up acc L = Except.ok out →
    (∀ k, dictContains acc.values k = true → dictContains out.values k = true)
      ∧ (∀ x, x ∈ acc.blobs → x ∈ out.blobs) := by
  intro L
  induction L with
  | nil =>
    intro acc out h
    rw [flGo] at h
    rw [← Except.ok.inj h]
    exact ⟨fun _ hk => hk, fun _ hx => hx⟩
  | cons a rest ih =>
    intro acc out h
    rw [flGo] at h
    cases hstep : flStep b up acc a with
    | error e =>
      rw [hstep] at h
      exact Except.noConfusion h
    | ok acc1 =>
      rw [hstep] at h
      obtain ⟨uri, bl, hvals, hblobs⟩ := flStep_ok_shape b up acc a acc1 hstep
      obtain ⟨ihc, ihb⟩ := ih acc1 out h
      constructor
      · intro k hk
        apply ihc
        rw [hvals]
        exact dictContains_insert_of acc.values (a ++ "_list") k (JVal.str uri) hk
      · intro x hx
        apply ihb
        rw [hblobs]
        exact List.mem_append_left bl hx

theorem flGo_lookup_preserve (b : String) (up : Bool) :
    ∀ (L : List String) (acc out : FlOutcome) (k0 : String),
    flGo b up acc L = Except.ok out →
    (∀ a, a ∈ L → a ++ "_list" ≠ k0) →
    dictLookup out.values k0 = dictLookup acc.values k0 := by
  intro L
  induction L with
  | nil =>
    intro acc out k0 h _
    rw [flGo] at h
    rw [← Except.ok.inj h]
  | cons a rest ih =>
    intro acc out k0 h hne
    rw [flGo] at h
    cases hstep : flStep b up acc a with
    | error e =>
      rw [hstep] at h
      exact Except.noConfusion h
    | ok acc1 =>
      rw [hstep] at h
      obtain ⟨uri, bl, hvals, hblobs⟩ := flStep_ok_shape b up acc a acc1 hstep
      rw [ih acc1 out k0 h (fun x hx => hne x (List.mem_cons_of_mem a hx)), hvals,
        dictLookup_insert_ne acc.values (a ++ "_list") k0 (JVal.str uri)
          (hne a (List.mem_cons_self a rest))]

theorem flGo_materializes (b : String) :
    ∀ (L : List String) (acc out : FlOutcome) (key : String) (xs : List String),
    flGo b true acc L = Except.ok out →
    key ∈ L → L.Nodup →
    (∀ a, a ∈ L → pyEndsWith a "_list" = false) →
    dictLookup acc.values key = some (JVal.list (xs.map JVal.str)) →
    dictLookup out.values (key ++ "_list") = some (JVal.str (cflUri b key))
      ∧ (cflBlobName b key, pyJoinStrs "\n" xs) ∈ out.blobs := by
  intro L
  induction L with
  | nil =>
    intro acc out key xs _ hk
    exact absurd hk (List.not_mem_nil key)
  | cons a rest ih =>
    intro acc out key xs hrun hk hnodup hends hv
    rw [flGo] at hrun
    by_cases hak : a = key
    · subst hak
      have hstep : flStep b true acc a = Except.ok
          { values := dictInsert acc.values (a ++ "_list") (JVal.str (cflUri b a)),
            blobs := acc.blobs ++ [(cflBlobName b a, pyJoinStrs "\n" xs)] } := by
        rw [flStep]
        simp only [hv]
        rw [create_file_list_strs]
        rfl
      rw [hstep] at hrun
      have hanotin : a ∉ rest := (List.nodup_cons.mp hnodup).1
      have hne : ∀ x, x ∈ rest → x ++ "_list" ≠ a ++ "_list" := by
        intro x hx hc
        exact hanotin (strAppend_right_cancel x a "_list" hc ▸ hx)
      constructor
      · rw [flGo_lookup_preserve b true rest _ out (a ++ "_list") hrun hne]
        exact dictLookup_insert_self acc.values (a ++ "_list") (JVal.str (cflUri b a))
      · exact (flGo_ok_mono b true rest _ out hrun).2 _
          (List.mem_append_right acc.blobs (List.mem_singleton_self _))
    · have hk2 : key ∈ rest := by
        rcases List.mem_cons.mp hk with rfl | hk2
        · exact absurd rfl hak
        · exact hk2
      cases hstep : flStep b true acc a with
      | error e =>
        rw [hstep] at hrun
        exact Except.noConfusion hrun
      | ok acc1 =>
        rw [hstep] at hrun
        obtain ⟨uri, bl, hvals, hblobs⟩ := flStep_ok_shape b true acc a acc1 hstep
        have hlook : dictLookup acc1.values key = some (JVal.list (xs.map JVal.str)) := by
          rw [hvals, dictLookup_insert_ne acc.values (a ++ "_list") key (JVal.str uri)
            (append_ne_of_not_endsWith key "_list" a (hends key hk))]
          exact hv
        exact ih acc1 out key xs hrun hk2 (List.Nodup.of_cons hnodup)
          (fun x hx => hends x (List.mem_cons_of_mem a hx)) hlook

theorem flGo_null_err (b : String) :
    ∀ (L : List String) (acc : FlOutcome) (key : String),
    key ∈ L →
    (∀ a, a ∈ L → pyEndsWith a "_list" = false) →
    dictLookup acc.values key = some JVal.null →
    ∃ e, flGo b true acc L = Except.error e := by
  intro L
  induction L with
  | nil =>
    intro acc key hk
    exact absurd hk (List.not_mem_nil key)
  | cons a rest ih =>
    intro acc key hk hends hv
    rw [flGo]
    cases hstep : flStep b true acc a with
    | error e => exact ⟨e, rfl⟩
    | ok acc1 =>
      by_cases hak : a = key
      · subst hak
        rw [flStep] at hstep
        simp only [hv] at hstep
        rw [create_file_list_null] at hstep
        exact Except.noConfusion hstep
      · have hk2 : key ∈ rest := by
          rcases List.mem_cons.mp hk with rfl | hk2
          · exact absurd rfl hak
          · exact hk2
        obtain ⟨uri, bl, hvals, hblobs⟩ := flStep_ok_shape b true acc a acc1 hstep
        have hlook : dictLookup acc1.values key = some JVal.null := by
          rw [hvals, dictLookup_insert_ne acc.values (a ++ "_list") key (JVal.str uri)
            (append_ne_of_not_endsWith key "_list" a (hends key hk))]
          exact hv
        exact ih acc1 key hk2 (fun x hx => hends x (List.mem_cons_of_mem a hx)) hlook

/-! ### The extraction loop without prefix configuration -/

theorem extractOutputsGo_none (eb : Option String) :
    ∀ (l acc : List (String × JVal)),
    ((acc.map Prod.fst)
      ++ (l.filter (fun p => !isNull p.2)).map (fun p => deprefixKey p.1)).Nodup →
    extractOutputsGo eb none acc l
      = Except.ok (acc ++ (l.filter (fun p => !isNull p.2)).map (fun p => (deprefixKey p.1, p.2))) := by
  intro l
  induction l with
  | nil =>
    intro acc _
    simp [extractOutputsGo]
  | cons p rest ih =>
    intro acc hnd
    obtain ⟨k, v⟩ := p
    by_cases hv : isNull v = true
    · have hfil : ((k, v) :: rest).filter (fun p => !isNull p.2)
          = rest.filter (fun p => !isNull p.2) := by
        simp [List.filter_cons, hv]
      rw [hfil] at hnd
      simp only [extractOutputsGo, hv, if_true]
      rw [hfil]
      exact ih acc hnd
    · have hvb : isNull v = false := by
        cases hcase : isNull v
        · rfl
        · exact absurd hcase hv
      have hfil : ((k, v) :: rest).filter (fun p => !isNull p.2)
          = (k, v) :: rest.filter (fun p => !isNull p.2) := by
        simp [List.filter_cons, hvb]
      rw [hfil] at hnd ⊢
      simp only [List.map_cons] at hnd ⊢
      have hnotmem : deprefixKey k ∉ acc.map Prod.fst := by
        rcases List.nodup_append.mp hnd with ⟨h1, h2, hdisj⟩
        exact fun hmem => hdisj hmem (List.mem_cons_self _ _)
      have hcont : dictContains acc (deprefixKey k) = false := by
        rw [Bool.eq_false_iff]
        exact fun hc => hnotmem ((dictContains_iff_mem acc (deprefixKey k)).mp hc)
      simp only [extractOutputsGo, hvb, Bool.false_eq_true, if_false, romdl_none]
      rw [dictInsert_of_not_contains acc (deprefixKey k) v hcont]
      rw [List.append_cons] at hnd
      have hnd2 : (((acc ++ [(deprefixKey k, v)]).map Prod.fst)
          ++ (rest.filter (fun p => !isNull p.2)).map (fun p => deprefixKey p.1)).Nodup := by
        simp only [List.map_append, List.map_cons, List.map_nil]
        exact hnd
      rw [ih (acc ++ [(deprefixKey k, v)]) hnd2]
      simp [List.append_assoc]

/-! ## Claim theorems -/

/-- C3: with both prefix configuration values present, the Path Rewriter
maps every string value containing the execution-bucket prefix to the same
string with every occurrence replaced by the outputs-directory prefix,
scans list elements independently, and raises the ConfigurationMismatch
error (Python `ValueError`) for any string value that does not contain the
prefix as a substring; consequently re-running it on an already-rewritten
string in which the prefix no longer occurs raises rather than silently
succeeding. -/
theorem c3_path_rewriter (eb od : String) :
    (∀ s, pyInStr eb s = true →
      replace_output_dir_maybe_list (JVal.str s) (some eb) (some od)
        = Except.ok (JVal.str (pyReplace s eb od)))
  ∧ (∀ s, pyInStr eb s = false →
      replace_output_dir_maybe_list (JVal.str s) (some eb) (some od)
        = Except.error PyError.valueError)
  ∧ (∀ xs : List String, (∀ s ∈ xs, pyInStr eb s = true) →
      replace_output_dir_maybe_list (JVal.list (xs.map JVal.str)) (some eb) (some od)
        = Except.ok (JVal.list (xs.map (fun s => JVal.str (pyReplace s eb od)))))
  ∧ (∀ xs : List String, (∃ s ∈ xs, pyInStr eb s = false) →
      replace_output_dir_maybe_list (JVal.list (xs.map JVal.str)) (some eb) (some od)
        = Except.error PyError.valueError)
  ∧ (∀ s, pyInStr eb (pyReplace s eb od) = false →
      replace_output_dir_maybe_list (JVal.str (pyReplace s eb od)) (some eb) (some od)
        = Except.error PyError.valueError) := by
  have hstr : ∀ s, replace_output_dir_maybe_list (JVal.str s) (some eb) (some od)
      = replace_output_dir (JVal.str s) (some eb) od := fun s => rfl
  have hlist : ∀ xs, replace_output_dir_maybe_list (JVal.list xs) (some eb) (some od)
      = match mapRod (some eb) od xs with
        | Except.error e => Except.error e
        | Except.ok ys => Except.ok (JVal.list ys) := fun xs => rfl
  refine ⟨?_, ?_, ?_, ?_, ?_⟩
  · intro s h
    rw [hstr, rod_str, if_pos h]
  · intro s h
    rw [hstr, rod_str, if_neg (by simp [h])]
  · intro xs h
    rw [hlist, mapRod_strs_ok eb od xs h]
  · intro xs h
    rw [hlist, mapRod_strs_err eb od xs h]
  · intro s h
    rw [hstr, rod_str, if_neg (by simp [h])]

/-- C3 witness: the spec scenario: execution-bucket `gs://exec`,
outputs-dir `gs://final`; `gs://exec/run1/a.vcf` is rewritten to
`gs://final/run1/a.vcf` and `gs://other/b.vcf` raises. -/
theorem c3_witness :
    (replace_output_dir_maybe_list (JVal.str "gs://exec/run1/a.vcf")
        (some "gs://exec") (some "gs://final")
      = Except.ok (JVal.str (pyReplace "gs://exec/run1/a.vcf" "gs://exec" "gs://final")))
  ∧ pyReplace "gs://exec/run1/a.vcf" "gs://exec" "gs://final" = "gs://final/run1/a.vcf"
  ∧ (replace_output_dir_maybe_list (JVal.str "gs://other/b.vcf")
        (some "gs://exec") (some "gs://final")
      = Except.error PyError.valueError) :=
  ⟨(c3_path_rewriter "gs://exec" "gs://final").1 "gs://exec/run1/a.vcf" (by decide),
   by decide,
   (c3_path_rewriter "gs://exec" "gs://final").2.1 "gs://other/b.vcf" (by decide)⟩

/-- C5 counterexample: supplying the execution-bucket prefix alone — even
one without the `gs://` scheme marker — is accepted without any error,
contradicting the claim that supplying either prefix without the other
aborts and that a supplied prefix must begin with the scheme marker. -/
theorem c5_cex :
    validatePrefixes (some "gs://exec") none = Except.ok (some "gs://exec", none)
  ∧ validatePrefixes (some "no-scheme") none = Except.ok (some "no-scheme", none) :=
  ⟨rfl, rfl⟩

/-- C5 (amended): validation runs before any transformation and checks
exactly this: supplying the outputs-directory prefix without the
execution-bucket prefix is an error; when the outputs-directory prefix is
supplied, both prefixes must begin with `gs://` and a trailing `/` is
stripped from each; supplying the execution-bucket prefix alone is accepted
unchecked (and unused). -/
theorem c5_validate_prefixes :
    (∀ eb, validatePrefixes eb none = Except.ok (eb, none))
  ∧ (∀ od, validatePrefixes none (some od) = Except.error PyError.valueError)
  ∧ (∀ eb od, pyStartsWith eb "gs://" = false →
      validatePrefixes (some eb) (some od) = Except.error PyError.valueError)
  ∧ (∀ eb od, pyStartsWith eb "gs://" = true → pyStartsWith od "gs://" = false →
      validatePrefixes (some eb) (some od) = Except.error PyError.valueError)
  ∧ (∀ eb od, pyStartsWith eb "gs://" = true → pyStartsWith od "gs://" = true →
      validatePrefixes (some eb) (some od)
        = Except.ok (some (if pyEndsWith eb "/" then pyDropLast eb else eb),
                     some (if pyEndsWith od "/" then pyDropLast od else od)))
  ∧ (∀ md eb od fl up e, validatePrefixes eb od = Except.error e →
      runMain md eb od fl up = Except.error e) := by
  refine ⟨fun eb => rfl, fun od => rfl, ?_, ?_, ?_, ?_⟩
  · intro eb od h
    simp [validatePrefixes, h]
  · intro eb od h1 h2
    simp [validatePrefixes, h1, h2]
  · intro eb od h1 h2
    simp [validatePrefixes, h1, h2]
  · intro md eb od fl up e h
    simp only [runMain, h]

/-- C5 witness: `gs://exec/` and `gs://final` validate, with the trailing
separator stripped from the first. -/
theorem c5_witness :
    validatePrefixes (some "gs://exec/") (some "gs://final")
      = Except.ok (some (if pyEndsWith "gs://exec/" "/" then pyDropLast "gs://exec/"
                         else "gs://exec/"),
                   some (if pyEndsWith "gs://final" "/" then pyDropLast "gs://final"
                         else "gs://final"))
  ∧ (if pyEndsWith "gs://exec/" "/" then pyDropLast "gs://exec/" else "gs://exec/") = "gs://exec" :=
  ⟨c5_validate_prefixes.2.2.2.2.1 "gs://exec/" "gs://final" (by decide) (by decide),
   by decide⟩

/-- C6 counterexample: with both prefixes configured a JSON number does not
pass through the Path Rewriter untouched and without error; the membership
test `execution_bucket not in value` raises `TypeError`. -/
theorem c6_cex :
    replace_output_dir_maybe_list (JVal.num 5) (some "gs://exec") (some "gs://final")
      = Except.error PyError.typeError := rfl

/-- C6 (amended): with both prefixes configured, a value that is neither a
string nor a list is not passed through: numbers, booleans and null raise
`TypeError` from the membership test, and a nested object raises
`ValueError` (prefix not among its keys) or `AttributeError` (prefix among
its keys, `dict` has no `replace`).  Such values pass through untouched
only when the outputs directory is not configured. -/
theorem c6_nonstring_values :
    (∀ eb od (n : Int), replace_output_dir_maybe_list (JVal.num n) (some eb) (some od)
        = Except.error PyError.typeError)
  ∧ (∀ eb od (bb : Bool), replace_output_dir_maybe_list (JVal.bool bb) (some eb) (some od)
        = Except.error PyError.typeError)
  ∧ (∀ eb od, replace_output_dir_maybe_list JVal.null (some eb) (some od)
        = Except.error PyError.typeError)
  ∧ (∀ eb od kvs, dictContains kvs eb = false →
      replace_output_dir_maybe_list (JVal.obj kvs) (some eb) (some od)
        = Except.error PyError.valueError)
  ∧ (∀ eb od kvs, dictContains kvs eb = true →
      replace_output_dir_maybe_list (JVal.obj kvs) (some eb) (some od)
        = Except.error PyError.attributeError)
  ∧ (∀ v eb, replace_output_dir_maybe_list v eb none = Except.ok v) := by
  refine ⟨fun eb od n => rfl, fun eb od bb => rfl, fun eb od => rfl, ?_, ?_, fun v eb => rfl⟩
  · intro eb od kvs h
    have hb : replace_output_dir_maybe_list (JVal.obj kvs) (some eb) (some od)
        = replace_output_dir (JVal.obj kvs) (some eb) od := rfl
    have hp : pyInItem (some eb) (JVal.obj kvs) = Except.ok (dictContains kvs eb) := rfl
    rw [hb]
    simp [replace_output_dir, hp, h]
  · intro eb od kvs h
    have hb : replace_output_dir_maybe_list (JVal.obj kvs) (some eb) (some od)
        = replace_output_dir (JVal.obj kvs) (some eb) od := rfl
    have hp : pyInItem (some eb) (JVal.obj kvs) = Except.ok (dictContains kvs eb) := rfl
    rw [hb]
    simp [replace_output_dir, hp, h]

/-- C6 witness: a nested object without the prefix among its keys raises
`ValueError` rather than passing through. -/
theorem c6_witness :
    replace_output_dir_maybe_list (JVal.obj [("a", JVal.num 1)])
        (some "gs://exec") (some "gs://final")
      = Except.error PyError.valueError :=
  c6_nonstring_values.2.2.2.1 "gs://exec" "gs://final" [("a", JVal.num 1)] (by decide)

/-- C9 counterexample: when the upload fails, `create_file_list` exits with
the temporary file still present: `os.unlink` is on the line after the
upload and the function has no cleanup handler. -/
theorem c9_cex :
    (create_file_list "samples_list" (JVal.list [JVal.str "s1", JVal.str "s2"])
        "gs://b" false).tmpDeleted = false
  ∧ (create_file_list "samples_list" (JVal.list [JVal.str "s1", JVal.str "s2"])
        "gs://b" false).result = Except.error PyError.storageError :=
  ⟨rfl, rfl⟩

/-- C9 (amended): the temporary local file is deleted on the successful exit
path only: when the join and the upload both succeed, the unlink runs; when
the upload fails, or the join itself raises, the unlink is never reached and
the file is left behind. -/
theorem c9_tmp_file :
    (∀ list_key v b content, pyJoinVal "\n" v = Except.ok content →
      (create_file_list list_key v b true).tmpDeleted = true
        ∧ (create_file_list list_key v b false).tmpDeleted = false)
  ∧ (∀ list_key v b e uploadOk, pyJoinVal "\n" v = Except.error e →
      (create_file_list list_key v b uploadOk).tmpDeleted = false) := by
  constructor
  · intro list_key v b content h
    constructor <;> simp [create_file_list, h]
  · intro list_key v b e uploadOk h
    simp [create_file_list, h]

/-- C9 witness: for the list `["x"]` the temporary file is deleted exactly
when the upload succeeds. -/
theorem c9_witness :
    (create_file_list "a_list" (JVal.list [JVal.str "x"]) "gs://b" true).tmpDeleted = true
  ∧ (create_file_list "a_list" (JVal.list [JVal.str "x"]) "gs://b" false).tmpDeleted = false :=
  c9_tmp_file.1 "a_list" (JVal.list [JVal.str "x"]) "gs://b" "x" rfl

/-- C1 counterexample: with output `GATKSVPipelineBatch.ped_file = "out.ped"`
(non-null, extracted to the bare key `ped_file`) and allow-listed input
`ped_file = "in.ped"`, the final ValueSet maps `ped_file` to the
input-derived `"in.ped"`, not the output-derived `"out.ped"`: the
unconditional assignment at line 191 lets inputs overwrite outputs. -/
theorem c1_cex :
    (extractOutputs [("GATKSVPipelineBatch.ped_file", JVal.str "out.ped")] none none
      = Except.ok [("ped_file", JVal.str "out.ped")])
  ∧ ((runMain ⟨[("ped_file", JVal.str "in.ped")],
               [("GATKSVPipelineBatch.ped_file", JVal.str "out.ped")]⟩
        none none none true).map (fun o => dictLookup o.values "ped_file")
      = Except.ok (some (JVal.str "in.ped")))
  ∧ JVal.str "in.ped" ≠ JVal.str "out.ped" := by
  refine ⟨rfl, rfl, ?_⟩
  intro h
  injection h with h1
  exact absurd h1 (by decide)

/-- C1 (amended): in the Value Extractor merge, an input entry whose key is
literally a bare allow-listed identifier overwrites any output-derived entry
for the same bare key: after the merge the ValueSet maps that identifier to
the input's value. -/
theorem c1_inputs_overwrite (values inputs : List (String × JVal)) (k : String)
    (hk : k ∈ INPUT_KEYS) (hc : dictContains inputs k = true) :
    ∃ m, mergeInputs values inputs = Except.ok m
      ∧ dictLookup m k = dictLookup inputs k := by
  have hprop : ∀ r ∈ INPUT_KEYS.filter (fun a => dictContains inputs a),
      pySplitDotLast r = r ∧ dictContains inputs r = true := by
    intro r hr
    rcases List.mem_filter.mp hr with ⟨hr1, hr2⟩
    exact ⟨INPUT_KEYS_splitDot r hr1, hr2⟩
  obtain ⟨m, hm, hin, hout⟩ := mergeInputsGo_spec inputs
    (INPUT_KEYS.filter (fun a => dictContains inputs a)) values hprop
  exact ⟨m, hm, hin k (List.mem_filter.mpr ⟨hk, hc⟩)⟩

/-- C1 witness: the merge at `ped_file` returns the input's value. -/
theorem c1_witness :
    ∃ m, mergeInputs [("ped_file", JVal.str "out.ped")] [("ped_file", JVal.str "in.ped")]
        = Except.ok m
      ∧ dictLookup m "ped_file" = dictLookup [("ped_file", JVal.str "in.ped")] "ped_file" :=
  c1_inputs_overwrite [("ped_file", JVal.str "out.ped")] [("ped_file", JVal.str "in.ped")]
    "ped_file" (by decide) (by decide)

/-- C2 (code bug): the loop at lines 189-191 intersects the raw input keys
with the bare `INPUT_KEYS`, so a dotted-qualified input key such as
`W.ped_file` never matches even though its last dot-segment `ped_file` is
allow-listed (the `raw_key.split('.')[-1]` in the loop body shows the
dotted case was intended).  On the claim's own scenario the run ends with
`ped_file = null` plus a warning for every allow-listed key, instead of
`ped_file = "x.ped"`. -/
theorem c2_dotted_input_ignored :
    (INPUT_KEYS.filter (fun k => dictContains [("W.ped_file", JVal.str "x.ped")] k) = [])
  ∧ ((runMain ⟨[("W.ped_file", JVal.str "x.ped")], []⟩ none none none true).map
        (fun o => dictLookup o.values "ped_file") = Except.ok (some JVal.null))
  ∧ ((runMain ⟨[("W.ped_file", JVal.str "x.ped")], []⟩ none none none true).map
        (fun o => o.warnings) = Except.ok INPUT_KEYS)
  ∧ pySplitDotLast "W.ped_file" = "ped_file" :=
  ⟨rfl, rfl, rfl, rfl⟩

/-- C10 counterexample: two non-null output entries whose keys collide after
de-prefixing (`GATKSVPipelineBatch.name` and `name`) cannot both appear in
the extracted mapping: the later entry wins and the earlier entry's value
`"a"` is absent. -/
theorem c10_cex :
    (extractOutputs [("GATKSVPipelineBatch.name", JVal.str "a"), ("name", JVal.str "b")]
        none none = Except.ok [("name", JVal.str "b")])
  ∧ deprefixKey "GATKSVPipelineBatch.name" = "name"
  ∧ dictLookup [("name", JVal.str "b")] "name" ≠ some (JVal.str "a") := by
  refine ⟨rfl, by decide, ?_⟩
  intro h
  rw [show dictLookup [("name", JVal.str "b")] "name" = some (JVal.str "b") from rfl] at h
  injection h with h1
  injection h1 with h2
  exact absurd h2 (by decide)

/-- C10 (amended): provided no two non-null output entries share the same
de-prefixed key, the extracted mapping (with no prefix configuration) holds
exactly the non-null entries of `outputs`, in order, each under its
de-prefixed key; entries with null value are absent. -/
theorem c10_extract (outputs : List (String × JVal)) (eb : Option String)
    (h : ((outputs.filter (fun p => !isNull p.2)).map (fun p => deprefixKey p.1)).Nodup) :
    extractOutputs outputs eb none
      = Except.ok ((outputs.filter (fun p => !isNull p.2)).map
          (fun p => (deprefixKey p.1, p.2))) := by
  have hgo := extractOutputsGo_none eb outputs []
  simp only [List.map_nil, List.nil_append] at hgo
  exact hgo h

/-- C10 witness: a non-null entry is de-prefixed and kept, a null entry is
dropped. -/
theorem c10_witness :
    (extractOutputs [("GATKSVPipelineBatch.name", JVal.str "sampleA"),
                     ("GATKSVPipelineBatch.unused", JVal.null)] none none
      = Except.ok (([("GATKSVPipelineBatch.name", JVal.str "sampleA"),
                     ("GATKSVPipelineBatch.unused", JVal.null)].filter
                      (fun p => !isNull p.2)).map (fun p => (deprefixKey p.1, p.2))))
  ∧ (([("GATKSVPipelineBatch.name", JVal.str "sampleA"),
       ("GATKSVPipelineBatch.unused", JVal.null)].filter
        (fun p => !isNull p.2)).map (fun p => (deprefixKey p.1, p.2))
      = [("name", JVal.str "sampleA")]) :=
  ⟨c10_extract [("GATKSVPipelineBatch.name", JVal.str "sampleA"),
                ("GATKSVPipelineBatch.unused", JVal.null)] none (by decide),
   by rfl⟩

/-- Keys outside the iterated set keep their lookup across the fill loop. -/
theorem fillMissingGo_lookup_preserve :
    ∀ (L : List String) (acc : List (String × JVal) × List String) (k : String),
    k ∉ L → dictLookup (fillMissingGo acc L).1 k = dictLookup acc.1 k := by
  intro L
  induction L with
  | nil =>
    intro acc k _
    rfl
  | cons a rest ih =>
    intro acc k hk
    have hka : k ≠ a := fun hh => hk (hh ▸ List.mem_cons_self a rest)
    have hk2 : k ∉ rest := fun hh => hk (List.mem_cons_of_mem a hh)
    rw [fillMissingGo, ih _ k hk2]
    exact dictLookup_insert_ne acc.1 a k JVal.null (fun hh => hka hh.symm)

/-- Every key iterated by the fill loop ends up mapped to null. -/
theorem fillMissingGo_lookup_null :
    ∀ (L : List String) (acc : List (String × JVal) × List String) (k : String),
    k ∈ L → L.Nodup → dictLookup (fillMissingGo acc L).1 k = some JVal.null := by
  intro L
  induction L with
  | nil =>
    intro acc k hk
    exact absurd hk (List.not_mem_nil k)
  | cons a rest ih =>
    intro acc k hk hnodup
    rcases List.mem_cons.mp hk with rfl | hk2
    · have hknotin : k ∉ rest := (List.nodup_cons.mp hnodup).1
      rw [fillMissingGo, fillMissingGo_lookup_preserve rest _ k hknotin]
      exact dictLookup_insert_self acc.1 k JVal.null
    · rw [fillMissingGo]
      exact ih _ k hk2 (List.Nodup.of_cons hnodup)

/-- Every allow-listed key absent before the fill is mapped to null after it. -/
theorem fillMissing_lookup_null (values : List (String × JVal)) (k : String)
    (hk : k ∈ INPUT_KEYS) (hc : dictContains values k = false) :
    dictLookup (fillMissing values).1 k = some JVal.null := by
  simp only [fillMissing]
  apply fillMissingGo_lookup_null
  · exact List.mem_filter.mpr ⟨hk, by simp [hc]⟩
  · exact INPUT_KEYS_nodup.filter _

/-- Every allow-listed key is present after the missing-key fill. -/
theorem fillMissing_contains (values : List (String × JVal)) (k : String)
    (hk : k ∈ INPUT_KEYS) : dictContains (fillMissing values).1 k = true := by
  simp only [fillMissing]
  apply fillMissingGo_contains
  by_cases hc : dictContains values k = true
  · exact Or.inr hc
  · have hcf : dictContains values k = false := by
      cases hcase : dictContains values k
      · rfl
      · exact absurd hcase hc
    exact Or.inl (List.mem_filter.mpr ⟨hk, by simp [hcf]⟩)

/-- The warning list is exactly the allow-listed keys absent before the fill,
in iteration order. -/
theorem fillMissing_warns (values : List (String × JVal)) :
    (fillMissing values).2 = INPUT_KEYS.filter (fun k => !dictContains values k) := by
  simp only [fillMissing]
  rw [fillMissingGo_warns]
  simp

/-- The file-list phase only adds keys, never removes one. -/
theorem fileListPhase_contains_mono (vals : List (String × JVal)) (flb : Option String)
    (up : Bool) (out : FlOutcome) (h : fileListPhase vals flb up = Except.ok out)
    (k : String) (hc : dictContains vals k = true) : dictContains out.values k = true := by
  cases flb with
  | none =>
    rw [fileListPhase] at h
    rw [← Except.ok.inj h]
    exact hc
  | some b => exact (flGo_ok_mono b up _ _ out h).1 k hc

/-- C4: every allow-listed required-input key absent from the ValueSet after
extraction is inserted with the null value and warned about exactly once
(never warned about when present), the fill itself cannot abort, and
consequently on every successful run the final emitted ValueSet contains
every allow-listed key. -/
theorem c4_missing_keys :
    (∀ values k, k ∈ INPUT_KEYS → dictContains (fillMissing values).1 k = true)
  ∧ (∀ values k, k ∈ INPUT_KEYS → dictContains values k = false →
      dictLookup (fillMissing values).1 k = some JVal.null)
  ∧ (∀ values, (fillMissing values).2 = INPUT_KEYS.filter (fun k => !dictContains values k))
  ∧ (∀ values k, k ∈ INPUT_KEYS → dictContains values k = false →
      (fillMissing values).2.count k = 1)
  ∧ (∀ values k, dictContains values k = true → (fillMissing values).2.count k = 0)
  ∧ (∀ md eb od fl up out, runMain md eb od fl up = Except.ok out →
      ∀ k, k ∈ INPUT_KEYS → dictContains out.values k = true) := by
  refine ⟨fillMissing_contains, fillMissing_lookup_null, fillMissing_warns, ?_, ?_, ?_⟩
  · intro values k hk hc
    rw [fillMissing_warns, List.count_filter (by simp [hc])]
    exact List.count_eq_one_of_mem INPUT_KEYS_nodup hk
  · intro values k hc
    rw [fillMissing_warns, List.count_eq_zero]
    intro hmem
    rcases List.mem_filter.mp hmem with ⟨_, hp⟩
    rw [hc] at hp
    exact Bool.noConfusion hp
  · intro md eb od fl up out hrun k hk
    cases hval : validatePrefixes eb od with
    | error e =>
      simp only [runMain, hval] at hrun
      exact Except.noConfusion hrun
    | ok p =>
      obtain ⟨eb2, od2⟩ := p
      cases hext : extractOutputs md.outputs eb2 od2 with
      | error e =>
        simp only [runMain, hval, hext] at hrun
        exact Except.noConfusion hrun
      | ok vals0 =>
        cases hmer : mergeInputs vals0 md.inputs with
        | error e =>
          simp only [runMain, hval, hext, hmer] at hrun
          exact Except.noConfusion hrun
        | ok vals1 =>
          cases hfl : fileListPhase (fillMissing vals1).1 fl up with
          | error e =>
            simp only [runMain, hval, hext, hmer, hfl] at hrun
            exact Except.noConfusion hrun
          | ok flo =>
            simp only [runMain, hval, hext, hmer, hfl] at hrun
            rw [← Except.ok.inj hrun]
            exact fileListPhase_contains_mono (fillMissing vals1).1 fl up flo hfl k
              (fillMissing_contains vals1 k hk)

/-- C4 witness: for an empty ValueSet, `name` is filled and warned about
exactly once. -/
theorem c4_witness :
    dictContains (fillMissing []).1 "name" = true
  ∧ dictLookup (fillMissing []).1 "name" = some JVal.null
  ∧ (fillMissing []).2.count "name" = 1 :=
  ⟨c4_missing_keys.1 [] "name" (by decide),
   c4_missing_keys.2.1 [] "name" (by decide) (by decide),
   c4_missing_keys.2.2.2.1 [] "name" (by decide) (by decide)⟩

/-- C7: when a file-list bucket is configured, every ValueSet key in
`FILE_LIST_KEYS` holding a list of strings is materialized: the blob named
`<key>_list.txt` under the bucket's subdirectory receives the newline-joined
elements as its content, and the companion key `<key>_list` maps to the
blob's `gs://` URI, a string ending in `<key>_list.txt`. -/
theorem c7_file_lists (values : List (String × JVal)) (b key : String) (xs : List String)
    (out : FlOutcome)
    (hk : key ∈ FILE_LIST_KEYS)
    (hv : dictLookup values key = some (JVal.list (xs.map JVal.str)))
    (hrun : fileListPhase values (some b) true = Except.ok out) :
    dictLookup out.values (key ++ "_list") = some (JVal.str (cflUri b key))
  ∧ (cflBlobName b key, pyJoinStrs "\n" xs) ∈ out.blobs
  ∧ (∃ p, cflUri b key = p ++ ((key ++ "_list") ++ ".txt")) := by
  have hkL : key ∈ FILE_LIST_KEYS.filter (fun a => dictContains values a) :=
    List.mem_filter.mpr ⟨hk, dictContains_of_lookup values key _ hv⟩
  have hnodup : (FILE_LIST_KEYS.filter (fun a => dictContains values a)).Nodup :=
    FILE_LIST_KEYS_nodup.filter _
  have hends : ∀ a, a ∈ FILE_LIST_KEYS.filter (fun a => dictContains values a) →
      pyEndsWith a "_list" = false :=
    fun a ha => FILE_LIST_KEYS_no_list_end a (List.mem_filter.mp ha).1
  have hmain := flGo_materializes b (FILE_LIST_KEYS.filter (fun a => dictContains values a))
    ⟨values, []⟩ out key xs hrun hkL hnodup hends hv
  refine ⟨hmain.1, hmain.2, ?_⟩
  obtain ⟨p1, hp1⟩ := osPathJoin_suffix (split_bucket_subdir b).2 ((key ++ "_list") ++ ".txt")
  obtain ⟨p2, hp2⟩ :=
    osPathJoin_suffix (osPathJoin "gs://" (split_bucket_subdir b).1) (cflBlobName b key)
  refine ⟨p2 ++ p1, ?_⟩
  rw [show cflUri b key
      = osPathJoin (osPathJoin "gs://" (split_bucket_subdir b).1) (cflBlobName b key) from rfl,
    hp2]
  rw [show cflBlobName b key
      = osPathJoin (split_bucket_subdir b).2 ((key ++ "_list") ++ ".txt") from rfl, hp1]
  exact (strAppend_assoc p2 p1 ((key ++ "_list") ++ ".txt")).symm

/-- C7 witness: the spec scenario: `samples = ["s1","s2"]` with bucket
`gs://b` yields companion key `samples_list` holding a URI ending in
`samples_list.txt`, and the blob content is `"s1\ns2"`. -/
theorem c7_witness :
    (dictLookup (FlOutcome.mk
        [("samples", JVal.list [JVal.str "s1", JVal.str "s2"]),
         ("samples_list", JVal.str "gs://b/samples_list.txt")]
        [("samples_list.txt", "s1\ns2")]).values ("samples" ++ "_list")
      = some (JVal.str (cflUri "gs://b" "samples")))
  ∧ ((cflBlobName "gs://b" "samples", pyJoinStrs "\n" ["s1", "s2"])
      ∈ (FlOutcome.mk
        [("samples", JVal.list [JVal.str "s1", JVal.str "s2"]),
         ("samples_list", JVal.str "gs://b/samples_list.txt")]
        [("samples_list.txt", "s1\ns2")]).blobs)
  ∧ (∃ p, cflUri "gs://b" "samples" = p ++ (("samples" ++ "_list") ++ ".txt")) :=
  c7_file_lists [("samples", JVal.list [JVal.str "s1", JVal.str "s2"])] "gs://b" "samples"
    ["s1", "s2"]
    (FlOutcome.mk
      [("samples", JVal.list [JVal.str "s1", JVal.str "s2"]),
       ("samples_list", JVal.str "gs://b/samples_list.txt")]
      [("samples_list.txt", "s1\ns2")])
    (by decide) rfl rfl

/-- C8 counterexample: a file-list key present with a null value is not
skipped: the materializer passes the null to `"\n".join`, which raises
`TypeError` and aborts the run. -/
theorem c8_cex :
    fileListPhase [("samples", JVal.null)] (some "gs://b") true
      = Except.error PyError.typeError := rfl

/-- C8 (amended): when a file-list bucket is configured and a key in
`FILE_LIST_KEYS` is present in the ValueSet with a null value, the
materializer does not skip it: the run aborts with an exception (a
`TypeError` from joining the null once that key is reached). -/
theorem c8_null_aborts (values : List (String × JVal)) (b key : String)
    (hk : key ∈ FILE_LIST_KEYS) (hv : dictLookup values key = some JVal.null) :
    ∃ e, fileListPhase values (some b) true = Except.error e := by
  have hkL : key ∈ FILE_LIST_KEYS.filter (fun a => dictContains values a) :=
    List.mem_filter.mpr ⟨hk, dictContains_of_lookup values key _ hv⟩
  have hends : ∀ a, a ∈ FILE_LIST_KEYS.filter (fun a => dictContains values a) →
      pyEndsWith a "_list" = false :=
    fun a ha => FILE_LIST_KEYS_no_list_end a (List.mem_filter.mp ha).1
  exact flGo_null_err b (FILE_LIST_KEYS.filter (fun a => dictContains values a))
    ⟨values, []⟩ key hkL hends hv

/-- C8 witness: a null `gcnv_model_tars` aborts the file-list phase. -/
theorem c8_witness :
    ∃ e, fileListPhase [("gcnv_model_tars", JVal.null)] (some "gs://x") true
        = Except.error e :=
  c8_null_aborts [("gcnv_model_tars", JVal.null)] "gs://x" "gcnv_model_tars"
    (by decide) rfl
